import Mathlib

/-!
# Verification of the rltgjqm Command Execution & Recovery Engine

Shallow embedding of the executor module of `bin/rltgjqm.js` (the `Executor`
class: `parseCommand`, `isDangerousCommand`, `executeCommand`,
`executeMultipleCommands`, `suggestErrorSolution`, `getUserSolutionChoice`,
`getSpecificSolution`, `executeSpecificSolution`, `parseSolutionOptions`,
`removeMarkdown`, and the result-summary counters of
`printExecutionSummary`).

External collaborators (the inquirer prompts, the `execa` process spawn, the
AI text generator) are modelled as oracle functions collected in an `Env`
record; observable side effects (prompts shown, spawn attempts, recovery
steps) are collected in an event trace.  JavaScript exceptions are modelled
with `Except String`: a thrown error is an `Except.error` carrying
`error.message`, and a `try/catch` is a `match` on that value.

The recovery path of the source is recursive without any structural bound
(`executeCommand` → `suggestErrorSolution` → … → `executeSpecificSolution`
→ `executeMultipleCommands` → `executeCommand`), so the embedding threads an
explicit `fuel : Nat` that decreases by one each time a recovery dialogue is
entered; at fuel 0 the model emits a `fuelExhausted` marker instead of
recursing.  All theorems below hold for every fuel value (or state the fuel
they use explicitly).
-/

namespace Rltgjqm

/-- The character class matched by JavaScript `\s` (and trimmed by
`String.prototype.trim`): ASCII whitespace, NBSP, BOM and the Unicode
space separators. -/
def isJsWs (c : Char) : Bool :=
  c ∈ [' ', '\t', '\n', '\x0b', '\x0c', '\r',
       Char.ofNat 0xa0, Char.ofNat 0x1680,
       Char.ofNat 0x2000, Char.ofNat 0x2001, Char.ofNat 0x2002,
       Char.ofNat 0x2003, Char.ofNat 0x2004, Char.ofNat 0x2005,
       Char.ofNat 0x2006, Char.ofNat 0x2007, Char.ofNat 0x2008,
       Char.ofNat 0x2009, Char.ofNat 0x200a,
       Char.ofNat 0x2028, Char.ofNat 0x2029, Char.ofNat 0x202f,
       Char.ofNat 0x205f, Char.ofNat 0x3000, Char.ofNat 0xfeff]

/-- JavaScript `String.prototype.trim`: strip leading and trailing
whitespace. -/
def jsTrim (s : String) : String :=
  String.mk (((s.data.dropWhile isJsWs).reverse.dropWhile isJsWs).reverse)

/-! ## Tokenizer: `Executor.parseCommand` -/

/-- The loop state of `parseCommand`: the `args` accumulated so far, the
`current` token being built, and the quoting state.  The source keeps
`quoteChar` as a string that is `''` while outside quotes; since it is only
compared under `inQuotes`, it is modelled as an `Option Char`. -/
structure ParseState where
  args : List String
  current : List Char
  inQuotes : Bool
  quoteChar : Option Char

/-- One iteration of the character loop of `parseCommand`. -/
def parseCommandStep (st : ParseState) (c : Char) : ParseState :=
  if (c == '"' || c == '\'') && !st.inQuotes then
    { st with inQuotes := true, quoteChar := some c }
  else if some c == st.quoteChar && st.inQuotes then
    { st with inQuotes := false, quoteChar := none }
  else if c == ' ' && !st.inQuotes then
    if jsTrim (String.mk st.current) == "" then st
    else { st with args := st.args ++ [jsTrim (String.mk st.current)], current := [] }
  else
    { st with current := st.current ++ [c] }

/-- The trailing push after the loop of `parseCommand`: append the last
(trimmed, nonempty) `current` token. -/
def parseFinish (st : ParseState) : List String :=
  if jsTrim (String.mk st.current) == "" then st.args
  else st.args ++ [jsTrim (String.mk st.current)]

/-- Source `Executor.parseCommand`: split a command string into an argument vector,
honouring single and double quotes. -/
def parseCommand (command : String) : List String :=
  parseFinish (command.data.foldl parseCommandStep ⟨[], [], false, none⟩)

/-! ## Danger classifier: `Executor.isDangerousCommand`

Each source pattern has the shape `w₁\s+w₂(\s+w₃)?` with literal words, and
`pattern.test` asks whether it matches anywhere in the string.  Because every
word of every pattern begins with a non-whitespace character, `\s+` can be
decided by counting the whitespace run between words. -/

/-- Split off the leading JavaScript-whitespace run: its length and the
remainder. -/
def wsRun : List Char → Nat × List Char
  | [] => (0, [])
  | c :: rest =>
    if isJsWs c then
      let (n, r) := wsRun rest
      (n + 1, r)
    else (0, c :: rest)

/-- Does the word sequence `ws`, with `\s+` (one or more whitespace
characters) between consecutive words, match at the very start of `cs`? -/
def seqMatchAt : List String → List Char → Bool
  | [], _ => true
  | [w], cs => w.data.isPrefixOf cs
  | w :: w2 :: rest, cs =>
    w.data.isPrefixOf cs &&
      (let cs1 := cs.drop w.data.length
       let p := wsRun cs1
       decide (1 ≤ p.1) && seqMatchAt (w2 :: rest) p.2)

/-- Does the word sequence match anywhere in `cs` (the semantics of
`RegExp.prototype.test` for these patterns)? -/
def seqMatchSomewhere (ws : List String) : List Char → Bool
  | [] => seqMatchAt ws []
  | c :: rest => seqMatchAt ws (c :: rest) || seqMatchSomewhere ws rest

/-- The fixed pattern list of `isDangerousCommand`, one entry per source
regular expression (in order): hard reset, forced clean, forced push,
interactive rebase, forced branch deletion, tag deletion, recursive forced
delete, history filtering. -/
def dangerousPatterns : List (List String) :=
  [["git", "reset", "--hard"],
   ["git", "clean", "-f"],
   ["git", "push", "--force"],
   ["git", "rebase", "--interactive"],
   ["git", "branch", "-D"],
   ["git", "tag", "-d"],
   ["rm", "-rf"],
   ["git", "filter-branch"]]

/-- Source `Executor.isDangerousCommand`: `dangerousPatterns.some(p => p.test command)`. -/
def isDangerousCommand (command : String) : Bool :=
  dangerousPatterns.any fun p => seqMatchSomewhere p command.data

/-! ## Data model -/

/-- The plain result object returned by `executeCommand` /
`executeMultipleCommands`.  Absent JavaScript fields (`undefined`) are the
defaults `false` / `none`.  The `result` field of a success (the raw `execa`
process object) carries no engine-level information and is omitted. -/
structure ExecResult where
  success : Bool
  cancelled : Bool := false
  dryRun : Bool := false
  skipped : Bool := false
  error : Option String := none
  command : Option String := none
  deriving DecidableEq, Repr

/-- Observable side effects of a run, in order: the danger confirmation
prompt, a process-spawn attempt (`execa` on the parsed argument vector), the
entry into a recovery dialogue (`suggestErrorSolution` invoked), an error
caught and logged inside the recovery dialogue, the user cancelling the
dialogue, the two abort notices of the dialogue, the continue-despite-failure
prompt of interactive mode, and the fuel cutoff marker of the model. -/
inductive Event where
  | confirmPrompt (command : String)
  | spawnAttempt (argv : List String)
  | recoveryStart (command error : String)
  | recoveryLogged (error : String)
  | recoveryCancelled
  | parseOptionsFailed
  | noCommandsFound
  | continuePrompt (index : Nat)
  | fuelExhausted
  deriving DecidableEq, Repr

/-- The execution mode strings `'dry' | 'auto' | 'interactive'` accepted by
`executeMultipleCommands` (a closed enumeration; any other string falls
through every branch of the source and is not a reachable call). -/
inductive Mode where
  | dry
  | auto
  | interactive
  deriving DecidableEq, Repr

/-- The `options` object of `executeCommand`; a missing property is
`undefined`, i.e. falsy. -/
structure ExecOptions where
  dryRun : Bool := false
  skipSuggestion : Bool := false
  deriving DecidableEq, Repr

/-- The `options` object of `executeMultipleCommands`.  The source
destructures only `mode` (default `'dry'`) from it; a `skipSuggestion`
property may be present (it is passed by `executeSpecificSolution`) but is
never read. -/
structure BatchOptions where
  mode : Mode := Mode.dry
  skipSuggestion : Bool := false
  deriving DecidableEq, Repr

/-- The per-command choice offered by interactive mode. -/
inductive StepChoice where
  | execute
  | skip
  | quit
  deriving DecidableEq, Repr

/-- The user's pick in the recovery option list: a numbered option, the
free-text entry, or cancel (`-1`). -/
inductive SolChoice where
  | pick (i : Nat)
  | direct
  | cancel
  deriving DecidableEq, Repr

/-- The execution-mode choice offered after extraction of replacement
commands. -/
inductive RecoveryChoice where
  | auto
  | interactive
  | dry
  | cancel
  deriving DecidableEq, Repr

/-- One parsed remediation option (`{title, description, fullText}`). -/
structure SolutionOption where
  title : String
  description : String
  fullText : String
  deriving DecidableEq, Repr

/-- The external collaborators of the engine, as oracles.

* `confirmAnswer`: the yes/no danger confirmation for a command.
* `spawnResult`: the outcome of `execa` on a parsed argument vector;
  `Except.error e` covers both a spawn failure and a non-zero exit, with `e`
  the JavaScript `error.message`.
* `autoSuggest`: the result of `config.getAutoSuggestSolutions()`.
  Modelled from the spec: the spec treats persisted user configuration as an
  external collaborator and describes this read as "recovery is enabled
  globally"; the `ConfigManager` snapshots under `src` do not define the
  accessor, so its value is taken as an oracle Boolean here.
* `generate`: `aiService.generateCommand` — the response text, or a thrown
  transport/auth error.
* `selectSolution`: the option-list choice of the user, keyed by the
  response the options were parsed from.
* `customInput`: the free-text replacement description.
* `recoveryMode`: the execution-mode choice for the replacement batch,
  keyed by the generator response.
* `stepChoice`: the execute/skip/quit choice of interactive mode for the
  i-th command of a batch.
* `continueOnError`: the answer to "continue despite failure?" for the
  i-th command of a batch. -/
structure Env where
  confirmAnswer : String → Bool
  spawnResult : List String → Except String Unit
  autoSuggest : Bool
  generate : String → Except String String
  selectSolution : String → SolChoice
  customInput : String
  recoveryMode : String → RecoveryChoice
  stepChoice : Nat → StepChoice
  continueOnError : Nat → Bool

/-! ## Response parsing: `removeMarkdown`, `parseSolutionOptions` -/

/-- JavaScript `String.prototype.split` with a one-character separator, on character
lists (`String.splitOn` itself does not reduce inside the kernel). -/
def splitOnChar (sep : Char) : List Char → List (List Char)
  | [] => [[]]
  | c :: rest =>
    if c == sep then [] :: splitOnChar sep rest
    else
      match splitOnChar sep rest with
      | [] => [[c]]
      | f :: fs => (c :: f) :: fs

/-- The backtick character (U+0060). -/
def backtickChar : Char := Char.ofNat 0x60

/-- Find the earliest occurrence of the closing delimiter after at least one
captured character, as the lazy group `(.+?)` does; `.` does not cross a
newline.  Returns the captured characters and the text after the closer. -/
def splitAtClose (closeD : List Char) : List Char → Option (List Char × List Char)
  | [] => none
  | c :: rest =>
    if c == '\n' then none
    else if closeD.isPrefixOf rest then some ([c], rest.drop closeD.length)
    else
      match splitAtClose closeD rest with
      | some (inner, after) => some (c :: inner, after)
      | none => none

/-- One global replacement pass `text.replace(open(.+?)close, inner)`:
scan left to right, replace each delimited span by its inner text, and do
not rescan replaced text.  `fuel` only bounds the scan (the callers pass the
text length, which always suffices). -/
def replaceDelims (openD closeD : List Char) : Nat → List Char → List Char
  | 0, cs => cs
  | _ + 1, [] => []
  | fuel + 1, c :: rest =>
    if openD.isPrefixOf (c :: rest) then
      match splitAtClose closeD ((c :: rest).drop openD.length) with
      | some (inner, after) => inner ++ replaceDelims openD closeD fuel after
      | none => c :: replaceDelims openD closeD fuel rest
    else c :: replaceDelims openD closeD fuel rest

/-- Source `Executor.removeMarkdown`: strip `**bold**`, `*italic*`, backtick code
spans and `~~strikethrough~~` (in that order), then trim. -/
def removeMarkdown (text : String) : String :=
  let s1 := replaceDelims ['*', '*'] ['*', '*'] text.data.length text.data
  let s2 := replaceDelims ['*'] ['*'] s1.length s1
  let s3 := replaceDelims [backtickChar] [backtickChar] s2.length s2
  let s4 := replaceDelims ['~', '~'] ['~', '~'] s3.length s3
  jsTrim (String.mk s4)

/-- The capture of `\s*(.+)` on a nonempty remainder: the greedy `\s*`
backtracks one step when everything left is whitespace, so that `(.+)`
keeps at least one character. -/
def captureAfterWs (rest : List Char) : List Char :=
  let w := (rest.takeWhile isJsWs).length
  rest.drop (min w (rest.length - 1))

/-- The match of `^(.+?):\s*(.+)` on `fullText`: the earliest `:` preceded
by at least one character and followed by at least one character yields
(group 1, text after the colon); otherwise no match.  `acc` holds the
characters before the scan position, reversed. -/
def titleSplitAux (acc : List Char) : List Char → Option (List Char × List Char)
  | [] => none
  | c :: rest =>
    if c == ':' && !acc.isEmpty && !rest.isEmpty then some (acc.reverse, rest)
    else titleSplitAux (c :: acc) rest

/-- Build one `SolutionOption` from a matched line remainder, following the
`title: description` split of the source, with the 40-character truncated
title as fallback. -/
def mkSolutionOption (fullText : String) : SolutionOption :=
  match titleSplitAux [] fullText.data with
  | some (t, afterColon) =>
    { title := jsTrim (String.mk t)
      description := jsTrim (String.mk (captureAfterWs afterColon))
      fullText := fullText }
  | none =>
    let title :=
      if 40 < fullText.length then String.mk (fullText.data.take 37) ++ "..."
      else fullText
    { title := title, description := fullText, fullText := fullText }

/-- The match of `^\d+\.\s*(.+)` on one line: a maximal digit run, a literal
dot, then the `\s*(.+)` capture; the capture is trimmed and passed through
`removeMarkdown` as in the source. -/
def lineOption (cs : List Char) : Option SolutionOption :=
  let ds := cs.takeWhile Char.isDigit
  if ds.isEmpty then none
  else
    match cs.drop ds.length with
    | '.' :: rest =>
      if rest.isEmpty then none
      else some (mkSolutionOption (removeMarkdown (jsTrim (String.mk (captureAfterWs rest)))))
    | _ => none

/-- Source `Executor.parseSolutionOptions`: split the response on newlines and keep
every line matching `^\d+\.\s*(.+)`. -/
def parseSolutionOptions (solutionOptions : String) : List SolutionOption :=
  (splitOnChar '\n' solutionOptions.data).filterMap lineOption

/-! ## Replacement-command extraction: `executeSpecificSolution`'s pattern

The source scans the response with
``(?:^|\n)(?:`{0,3})\s*(git\s+[^\n`]+)`` (flags `gmi`) and then strips
backticks and newlines from each match and trims it.  Both `^` (multiline)
and the explicit `\n` alternative anchor every match at a line start, at
most one match fits per line, and a `\s*` that crosses a newline only ever
crosses otherwise-blank lines (which themselves produce no match), so the
extraction is computed line by line: strip up to three leading backticks,
skip whitespace, require `git` (case-insensitively) followed by at least one
whitespace character and at least one further character before the first
backtick, and return the span up to the first backtick, trimmed. -/

/-- Strip up to `n` leading backticks (the `` `{0,3} `` part). -/
def stripBackticks : Nat → List Char → List Char
  | 0, cs => cs
  | n + 1, cs =>
    match cs with
    | c :: rest => if c == backtickChar then stripBackticks n rest else cs
    | [] => []

/-- The command extracted from a single line, if the pattern matches there. -/
def lineGitCommand (cs : List Char) : Option String :=
  let cs2 := (stripBackticks 3 cs).dropWhile isJsWs
  match cs2 with
  | g :: i :: t :: rest =>
    if g.toLower == 'g' && i.toLower == 'i' && t.toLower == 't' then
      let w := (rest.takeWhile isJsWs).length
      let ok := decide (2 ≤ w) ||
        (w == 1 && (match rest.get? 1 with
                    | some c => c != backtickChar
                    | none => false))
      if ok then
        some (jsTrim (String.mk (g :: i :: t :: rest.takeWhile (fun c => c != backtickChar))))
      else none
    else none
  | _ => none

/-- The replacement-command list extracted by `executeSpecificSolution`. -/
def extractGitCommands (solution : String) : List String :=
  (splitOnChar '\n' solution.data).filterMap lineGitCommand

/-! ## The two recovery prompts -/

/-- The phase-1 prompt of `suggestErrorSolution` (asks for three numbered
remediation directions, no concrete commands). -/
def solutionPrompt (command errorMessage : String) : String :=
  "Git 명령어 \"" ++ command ++ "\" 실행 중 다음 오류가 발생했습니다:\n\n" ++
  errorMessage ++
  "\n\n이 오류에 대한 해결 방법을 3가지 선택지로 제공해주세요. 각 선택지는 다음 형식으로:\n\n" ++
  "1. [방법명]: [간단한 설명]\n2. [방법명]: [간단한 설명]  \n3. [방법명]: [간단한 설명]\n\n" ++
  "구체적인 명령어는 제공하지 말고, 해결 방향성만 알려주세요."

/-- The phase-2 prompt of `getSpecificSolution` (asks for concrete ordered
replacement commands for the chosen solution). -/
def specificPrompt (command errorMessage selectedSolution : String) : String :=
  "Git 명령어 \"" ++ command ++ "\" 실행 중 다음 오류가 발생했고:\n\n" ++
  errorMessage ++
  "\n\n사용자가 다음 해결 방법을 선택했습니다:\n\"" ++ selectedSolution ++
  "\"\n\n이 해결 방법을 위한 구체적인 Git 명령어들을 순서대로 제공해주세요. " ++
  "각 명령어는 새 줄에 작성하고, 설명은 최소화해주세요."

/-! ## Single-command runner: `Executor.executeCommand`

The `try` part of `executeCommand` (danger check, confirmation, dry-run
check, tokenize, spawn) is `executeCommandBody`; it yields the events that
happened and either a returned result (`Except.ok`) or a thrown error
(`Except.error`, from `execa`).  The `catch` part — log, conditionally run
the recovery dialogue, return the `Failed` result — is added by
`executeCommandP`, which takes the recovery dialogue as a function
parameter `recover` so that the mutual recursion of the source can be tied
off by fuel in `recoverAt` below. -/

/-- The part of the `try` block after the danger check: dry-run check, then
tokenize and spawn.  `evs` are the events of the danger check. -/
def executeCommandRun (env : Env) (selfDryRun : Bool) (command : String)
    (options : ExecOptions) (evs : List Event) :
    List Event × Except String ExecResult :=
  if selfDryRun || options.dryRun then
    (evs, Except.ok { success := true, dryRun := true, command := some command })
  else
    let argv := parseCommand command
    match env.spawnResult argv with
    | Except.ok _ => (evs ++ [Event.spawnAttempt argv], Except.ok { success := true })
    | Except.error e => (evs ++ [Event.spawnAttempt argv], Except.error e)

/-- The whole `try` block of `executeCommand`. -/
def executeCommandBody (env : Env) (selfDryRun : Bool) (command : String)
    (options : ExecOptions) : List Event × Except String ExecResult :=
  if isDangerousCommand command then
    if env.confirmAnswer command then
      executeCommandRun env selfDryRun command options [Event.confirmPrompt command]
    else ([Event.confirmPrompt command], Except.ok { success := false, cancelled := true })
  else executeCommandRun env selfDryRun command options []

/-- Source `Executor.executeCommand`, with the recovery dialogue abstracted as
`recover`.  On a thrown error the `catch` block consults the auto-suggest
flag and `options.skipSuggestion`, possibly runs the dialogue, and returns
the `Failed` result carrying `error.message`. -/
def executeCommandP (recover : String → String → List Event) (env : Env)
    (selfDryRun : Bool) (command : String) (options : ExecOptions) :
    ExecResult × List Event :=
  let body := executeCommandBody env selfDryRun command options
  match body.2 with
  | Except.ok r => (r, body.1)
  | Except.error e =>
    let recEvs := if env.autoSuggest && !options.skipSuggestion then recover command e else []
    ({ success := false, error := some e }, body.1 ++ recEvs)

/-! ## Batch executor: `Executor.executeMultipleCommands` -/

/-- The `'auto'` loop: run each command with `{ dryRun: false }`, stop after
the first result that is failed (`!success && !cancelled`) or cancelled.
(The 500 ms pause between commands has no observable effect and is not
modelled.) -/
def runAutoP (recover : String → String → List Event) (env : Env)
    (selfDryRun : Bool) : List String → List ExecResult × List Event
  | [] => ([], [])
  | command :: rest =>
    let r := executeCommandP recover env selfDryRun command { dryRun := false }
    if !r.1.success && !r.1.cancelled then ([r.1], r.2)
    else if r.1.cancelled then ([r.1], r.2)
    else
      let c := runAutoP recover env selfDryRun rest
      (r.1 :: c.1, r.2 ++ c.2)

/-- The `'interactive'` loop, with `i` the index of the current command in
the batch (used to key the prompt oracles).  `quit` halts with no further
result; `skip` records a `Skipped` result; `execute` runs the command with
`{ dryRun: false }` and, on a failed (not cancelled) result, asks whether to
continue despite the failure. -/
def runInteractiveP (recover : String → String → List Event) (env : Env)
    (selfDryRun : Bool) (i : Nat) : List String → List ExecResult × List Event
  | [] => ([], [])
  | command :: rest =>
    match env.stepChoice i with
    | StepChoice.quit => ([], [])
    | StepChoice.skip =>
      let c := runInteractiveP recover env selfDryRun (i + 1) rest
      ({ success := true, skipped := true, command := some command } :: c.1, c.2)
    | StepChoice.execute =>
      let r := executeCommandP recover env selfDryRun command { dryRun := false }
      if !r.1.success && !r.1.cancelled then
        if env.continueOnError i then
          let c := runInteractiveP recover env selfDryRun (i + 1) rest
          (r.1 :: c.1, r.2 ++ [Event.continuePrompt i] ++ c.2)
        else ([r.1], r.2 ++ [Event.continuePrompt i])
      else
        let c := runInteractiveP recover env selfDryRun (i + 1) rest
        (r.1 :: c.1, r.2 ++ c.2)

/-- Source `Executor.executeMultipleCommands`, with the recovery dialogue
abstracted.  Only `options.mode` is read; in particular a `skipSuggestion`
property of the batch options is never forwarded to `executeCommand`, which
is always called with the fresh options object `{ dryRun: false }`. -/
def executeMultipleCommandsP (recover : String → String → List Event)
    (env : Env) (selfDryRun : Bool) (commands : List String)
    (options : BatchOptions) : List ExecResult × List Event :=
  match options.mode with
  | Mode.dry =>
    (commands.map fun command => { success := true, dryRun := true, command := some command }, [])
  | Mode.auto => runAutoP recover env selfDryRun commands
  | Mode.interactive => runInteractiveP recover env selfDryRun 0 commands

/-! ## Recovery dialogue -/

/-- Source `Executor.executeSpecificSolution`: extract the replacement commands; if
none, report and stop; otherwise ask for an execution mode and, unless
cancelled, run the inner batch with `{ mode, skipSuggestion: true }`
(results are awaited and discarded). -/
def executeSpecificSolutionP (recover : String → String → List Event)
    (env : Env) (selfDryRun : Bool) (solution : String) : List Event :=
  let commands := extractGitCommands solution
  if commands.isEmpty then [Event.noCommandsFound]
  else
    match env.recoveryMode solution with
    | RecoveryChoice.cancel => [Event.recoveryCancelled]
    | RecoveryChoice.auto =>
      (executeMultipleCommandsP recover env selfDryRun commands
        { mode := Mode.auto, skipSuggestion := true }).2
    | RecoveryChoice.interactive =>
      (executeMultipleCommandsP recover env selfDryRun commands
        { mode := Mode.interactive, skipSuggestion := true }).2
    | RecoveryChoice.dry =>
      (executeMultipleCommandsP recover env selfDryRun commands
        { mode := Mode.dry, skipSuggestion := true }).2

/-- Source `Executor.getSpecificSolution`: phase-2 generator call inside a
`try/catch`; a thrown generator error is caught and logged. -/
def getSpecificSolutionP (recover : String → String → List Event) (env : Env)
    (selfDryRun : Bool) (command errorMessage selectedSolution : String) :
    List Event :=
  match env.generate (specificPrompt command errorMessage selectedSolution) with
  | Except.error e => [Event.recoveryLogged e]
  | Except.ok response => executeSpecificSolutionP recover env selfDryRun response

/-- Source `Executor.getUserSolutionChoice`: parse the numbered options (abort if
none), then dispatch on the user's pick: a numbered option, the free-text
input, or cancel.  (An out-of-range pick cannot be produced by the list
prompt; the model returns no events for it.)  The `try/catch` of the source
is dead in the model because nothing in this phase throws. -/
def getUserSolutionChoiceP (recover : String → String → List Event) (env : Env)
    (selfDryRun : Bool) (command errorMessage solutionOptions : String) :
    List Event :=
  let options := parseSolutionOptions solutionOptions
  if options.length == 0 then [Event.parseOptionsFailed]
  else
    match env.selectSolution solutionOptions with
    | SolChoice.cancel => [Event.recoveryCancelled]
    | SolChoice.direct =>
      getSpecificSolutionP recover env selfDryRun command errorMessage env.customInput
    | SolChoice.pick i =>
      match options.get? i with
      | some o => getSpecificSolutionP recover env selfDryRun command errorMessage o.fullText
      | none => []

/-- Source `Executor.suggestErrorSolution`: phase-1 generator call inside a
`try/catch`; a thrown generator error is caught and logged, otherwise the
choice dialogue runs.  The `recoveryStart` event marks the entry into the
dialogue. -/
def suggestErrorSolutionP (recover : String → String → List Event) (env : Env)
    (selfDryRun : Bool) (command errorMessage : String) : List Event :=
  Event.recoveryStart command errorMessage ::
    (match env.generate (solutionPrompt command errorMessage) with
     | Except.error e => [Event.recoveryLogged e]
     | Except.ok response =>
       getUserSolutionChoiceP recover env selfDryRun command errorMessage response)

/-- The recovery dialogue at a given depth budget: each nested dialogue
uses one unit of fuel; at fuel 0 the model stops with a marker (the source
itself has no such bound — that unboundedness is exactly what claim C1 is
about). -/
def recoverAt : Nat → Env → Bool → String → String → List Event
  | 0, _, _, _, _ => [Event.fuelExhausted]
  | n + 1, env, selfDryRun, command, errorMessage =>
    suggestErrorSolutionP (recoverAt n env selfDryRun) env selfDryRun command errorMessage

/-- Source `Executor.executeCommand` with a recovery depth budget. -/
def executeCommand (env : Env) (fuel : Nat) (selfDryRun : Bool)
    (command : String) (options : ExecOptions) : ExecResult × List Event :=
  executeCommandP (recoverAt fuel env selfDryRun) env selfDryRun command options

/-- Source `Executor.executeMultipleCommands` with a recovery depth budget. -/
def executeMultipleCommands (env : Env) (fuel : Nat) (selfDryRun : Bool)
    (commands : List String) (options : BatchOptions) :
    List ExecResult × List Event :=
  executeMultipleCommandsP (recoverAt fuel env selfDryRun) env selfDryRun commands options

/-- Source `Executor.executeSpecificSolution` with a recovery depth budget. -/
def executeSpecificSolution (env : Env) (fuel : Nat) (selfDryRun : Bool)
    (solution : String) : List Event :=
  executeSpecificSolutionP (recoverAt fuel env selfDryRun) env selfDryRun solution

/-- The result of running one command the way both batch loops do
(`executeCommand(command, { dryRun: false })`). -/
def commandOutcome (env : Env) (fuel : Nat) (selfDryRun : Bool)
    (command : String) : ExecResult :=
  (executeCommand env fuel selfDryRun command { dryRun := false }).1

/-! ## Result reporter: the five counters of `printExecutionSummary` -/

/-- The `successful` filter of `printExecutionSummary`. -/
def isSuccessKind (r : ExecResult) : Bool := r.success && !r.dryRun && !r.skipped

/-- The `failed` filter of `printExecutionSummary`. -/
def isFailedKind (r : ExecResult) : Bool := !r.success && !r.cancelled

/-- The `cancelled` filter of `printExecutionSummary`. -/
def isCancelledKind (r : ExecResult) : Bool := r.cancelled

/-- The `skipped` filter of `printExecutionSummary`. -/
def isSkippedKind (r : ExecResult) : Bool := r.skipped

/-- The `dryRun` filter of `printExecutionSummary`. -/
def isDryRunKind (r : ExecResult) : Bool := r.dryRun

/-- The `successful` count. -/
def countSuccessful (results : List ExecResult) : Nat :=
  (results.filter isSuccessKind).length

/-- The `failed` count. -/
def countFailed (results : List ExecResult) : Nat :=
  (results.filter isFailedKind).length

/-- The `cancelled` count. -/
def countCancelled (results : List ExecResult) : Nat :=
  (results.filter isCancelledKind).length

/-- The `skipped` count. -/
def countSkipped (results : List ExecResult) : Nat :=
  (results.filter isSkippedKind).length

/-- The `dryRun` count. -/
def countDryRun (results : List ExecResult) : Nat :=
  (results.filter isDryRunKind).length

/-! ## Specification-side reference definitions

These definitions follow the words of the specification (not the source) and
are used only on the specification side of refinement statements. -/

/-- Specification reference ("stops iterating … as soon as a result is
`Failed` or `Cancelled`"): keep the elements of a list up to and including
the first one satisfying `p`. -/
def stopAfterFirst {α : Type} (p : α → Bool) : List α → List α
  | [] => []
  | r :: rs => if p r then [r] else r :: stopAfterFirst p rs

/-- Specification reference for the amended tokenizer claim: the fields
between space characters, each trimmed of surrounding whitespace, with the
empty ones dropped. -/
def trimmedFields (l : List Char) : List String :=
  ((splitOnChar ' ' l).map fun f => jsTrim (String.mk f)).filter fun t => t != ""

/-- The fields of `trimmedFields` on a string. -/
def specSpaceTokens (s : String) : List String :=
  trimmedFields s.data

/-- Specification reference ("batch results … are 1:1 with input commands,
except that a run may terminate early"): `rs` pairs up, in order, with a
prefix of `commands`, each pair related by `matches`. -/
inductive PrefixCorr (rel : String → ExecResult → Prop) :
    List String → List ExecResult → Prop
  | nil (commands : List String) : PrefixCorr rel commands []
  | cons (c : String) (cs : List String) (r : ExecResult) (rs : List ExecResult) :
      rel c r → PrefixCorr rel cs rs →
      PrefixCorr rel (c :: cs) (r :: rs)

/-- The result forms a batch loop can record for the command `c`: the
outcome of running it, the `Skipped` record, or the `PreviewedOnly`
record. -/
def resultFor (env : Env) (fuel : Nat) (selfDryRun : Bool) (c : String)
    (r : ExecResult) : Prop :=
  r = commandOutcome env fuel selfDryRun c
  ∨ r = { success := true, skipped := true, command := some c }
  ∨ r = { success := true, dryRun := true, command := some c }

/-! ## Concrete environments for witnesses and counterexamples -/

/-- A benign environment: every confirmation accepted, every spawn
succeeds, auto-suggest off, the generator offline, every dialogue choice a
cancel, every step executed, no continuation after failure. -/
def baseEnv : Env where
  confirmAnswer := fun _ => true
  spawnResult := fun _ => Except.ok ()
  autoSuggest := false
  generate := fun _ => Except.error "offline"
  selectSolution := fun _ => SolChoice.cancel
  customInput := ""
  recoveryMode := fun _ => RecoveryChoice.cancel
  stepChoice := fun _ => StepChoice.execute
  continueOnError := fun _ => false

/-- Every spawn fails with message "spawn failed", auto-suggest is on, and
the replacement batch is run in automatic mode. -/
def envC1 : Env :=
  { baseEnv with
    spawnResult := fun _ => Except.error "spawn failed"
    autoSuggest := true
    recoveryMode := fun _ => RecoveryChoice.auto }

/-- Every spawn fails with message "boom", auto-suggest is on, and the
generator always throws. -/
def envC2w : Env :=
  { baseEnv with
    spawnResult := fun _ => Except.error "boom"
    autoSuggest := true }

/-- Every spawn fails with message "boom". -/
def envC3w : Env :=
  { baseEnv with spawnResult := fun _ => Except.error "boom" }

/-- Every danger confirmation declined. -/
def envC5w : Env :=
  { baseEnv with confirmAnswer := fun _ => false }

/-- Skip the first command, quit on the second. -/
def envC7w : Env :=
  { baseEnv with
    stepChoice := fun i => if i == 0 then StepChoice.skip else StepChoice.quit }

/-- Every danger confirmation declined. -/
def envC8x : Env :=
  { baseEnv with confirmAnswer := fun _ => false }

/-- Every danger confirmation declined, every step executed. -/
def envC9w : Env :=
  { baseEnv with confirmAnswer := fun _ => false }

/-- Every spawn fails with message "boom". -/
def envC10w : Env :=
  { baseEnv with spawnResult := fun _ => Except.error "boom" }

/-! # Theorems

## Shared lemmas -/

theorem executeCommandRun_spawn_error (env : Env) (sdr : Bool) (command : String)
    (opts : ExecOptions) (evs : List Event) (e : String)
    (hsdr : sdr = false) (hdry : opts.dryRun = false)
    (hspawn : env.spawnResult (parseCommand command) = Except.error e) :
    executeCommandRun env sdr command opts evs =
      (evs ++ [Event.spawnAttempt (parseCommand command)], Except.error e) := by
  simp [executeCommandRun, hsdr, hdry, hspawn]

theorem executeCommandBody_spawn_error (env : Env) (sdr : Bool) (command : String)
    (opts : ExecOptions) (e : String)
    (hsdr : sdr = false) (hdry : opts.dryRun = false)
    (hconf : isDangerousCommand command = false ∨ env.confirmAnswer command = true)
    (hspawn : env.spawnResult (parseCommand command) = Except.error e) :
    executeCommandBody env sdr command opts =
      ((if isDangerousCommand command then [Event.confirmPrompt command] else []) ++
        [Event.spawnAttempt (parseCommand command)], Except.error e) := by
  unfold executeCommandBody
  rcases hconf with h | h
  · simp [h, executeCommandRun_spawn_error env sdr command opts _ e hsdr hdry hspawn]
  · by_cases hd : isDangerousCommand command
    · simp [hd, h, executeCommandRun_spawn_error env sdr command opts _ e hsdr hdry hspawn]
    · simp [hd, executeCommandRun_spawn_error env sdr command opts _ e hsdr hdry hspawn]

/-! ## C5 — a declined danger confirmation cancels and never spawns -/

/-- C5: for every command matching a danger pattern, declining the
confirmation yields exactly the `Cancelled` result (never `Failed` or
`Succeeded`) together with the sole confirmation-prompt event; in
particular no spawn attempt occurs. -/
theorem dangerous_declined_is_cancelled (env : Env) (fuel : Nat) (sdr : Bool)
    (command : String) (opts : ExecOptions)
    (hd : isDangerousCommand command = true)
    (hc : env.confirmAnswer command = false) :
    executeCommand env fuel sdr command opts =
      ({ success := false, cancelled := true }, [Event.confirmPrompt command])
    ∧ isCancelledKind (executeCommand env fuel sdr command opts).1 = true
    ∧ isFailedKind (executeCommand env fuel sdr command opts).1 = false
    ∧ isSuccessKind (executeCommand env fuel sdr command opts).1 = false
    ∧ (executeCommand env fuel sdr command opts).2.filter
        (fun ev => match ev with | Event.spawnAttempt _ => true | _ => false) = [] := by
  have h1 : executeCommand env fuel sdr command opts =
      ({ success := false, cancelled := true }, [Event.confirmPrompt command]) := by
    unfold executeCommand executeCommandP executeCommandBody
    simp [hd, hc]
  refine ⟨h1, ?_, ?_, ?_, ?_⟩ <;> rw [h1] <;> rfl

/-- Witness for C5 at `git reset --hard HEAD~1` with every confirmation
declined. -/
theorem dangerous_declined_is_cancelled_witness :
    executeCommand envC5w 0 false "git reset --hard HEAD~1" {} =
      ({ success := false, cancelled := true },
       [Event.confirmPrompt "git reset --hard HEAD~1"]) :=
  (dangerous_declined_is_cancelled envC5w 0 false "git reset --hard HEAD~1" {}
    (by decide) (by decide)).1

/-! ## C6 — preview mode maps every command to `PreviewedOnly` -/

/-- C6: a batch in preview (dry) mode returns exactly one `PreviewedOnly`
result per input command and produces no events at all — no spawn attempt
and no danger confirmation. -/
theorem preview_mode_previews_everything (env : Env) (fuel : Nat) (sdr : Bool)
    (commands : List String) (sk : Bool) :
    executeMultipleCommands env fuel sdr commands { mode := Mode.dry, skipSuggestion := sk } =
      (commands.map fun command =>
        { success := true, dryRun := true, command := some command }, [])
    ∧ (executeMultipleCommands env fuel sdr commands
        { mode := Mode.dry, skipSuggestion := sk }).1.length = commands.length := by
  refine ⟨rfl, ?_⟩
  simp [executeMultipleCommands, executeMultipleCommandsP]

/-! ## C3 — automatic mode stops at the first failed or cancelled result -/

theorem runAutoP_eq_stopAfterFirst (recover : String → String → List Event)
    (env : Env) (sdr : Bool) (commands : List String) :
    (runAutoP recover env sdr commands).1 =
      stopAfterFirst (fun r => isFailedKind r || isCancelledKind r)
        (commands.map fun c => (executeCommandP recover env sdr c { dryRun := false }).1) := by
  induction commands with
  | nil => rfl
  | cons c cs ih =>
    simp only [runAutoP, List.map_cons, stopAfterFirst]
    cases hs : (executeCommandP recover env sdr c { dryRun := false }).1.success <;>
      cases hc : (executeCommandP recover env sdr c { dryRun := false }).1.cancelled <;>
        simp [isFailedKind, isCancelledKind, hs, hc, ih]

/-- C3: in automatic mode the commands are run strictly in order and the
result list is the image of the command list under the single-command
runner, cut after the first `Failed` or `Cancelled` result (trailing
commands are never attempted); in particular a batch `[a, b, c]` whose
first command fails returns only that one `Failed` result. -/
theorem auto_mode_stops_at_first_failure (env : Env) (fuel : Nat) (sdr : Bool)
    (commands : List String) (sk : Bool) :
    (executeMultipleCommands env fuel sdr commands
        { mode := Mode.auto, skipSuggestion := sk }).1 =
      stopAfterFirst (fun r => isFailedKind r || isCancelledKind r)
        (commands.map (commandOutcome env fuel sdr))
    ∧ ∀ a b c : String, isFailedKind (commandOutcome env fuel sdr a) = true →
        (executeMultipleCommands env fuel sdr [a, b, c]
            { mode := Mode.auto, skipSuggestion := sk }).1 =
          [commandOutcome env fuel sdr a] := by
  constructor
  · exact runAutoP_eq_stopAfterFirst (recoverAt fuel env sdr) env sdr commands
  · intro a b c h
    have hx : (executeMultipleCommands env fuel sdr [a, b, c]
          { mode := Mode.auto, skipSuggestion := sk }).1 =
        stopAfterFirst (fun r => isFailedKind r || isCancelledKind r)
          ([a, b, c].map (commandOutcome env fuel sdr)) :=
      runAutoP_eq_stopAfterFirst (recoverAt fuel env sdr) env sdr [a, b, c]
    rw [hx]
    simp [stopAfterFirst, h]

/-- Witness for C3: with every spawn failing, `[git push, git pull,
git fetch]` yields only the failed result of `git push`. -/
theorem auto_mode_stops_at_first_failure_witness :
    (executeMultipleCommands envC3w 0 false ["git push", "git pull", "git fetch"]
        { mode := Mode.auto }).1 =
      [commandOutcome envC3w 0 false "git push"] :=
  (auto_mode_stops_at_first_failure envC3w 0 false ["git push", "git pull", "git fetch"]
      false).2 "git push" "git pull" "git fetch" (by decide)

/-! ## C1 — the suppress-recovery flag is dropped by the batch executor

`executeSpecificSolution` passes `{ mode, skipSuggestion: true }` to
`executeMultipleCommands` (its comment says this is to prevent an infinite
loop), but `executeMultipleCommands` destructures only `mode` from its
options and calls `executeCommand(command, { dryRun: false })`, so the
suppression never reaches the replacement commands. -/

/-- C1 (refuted; the claim is the intent documented in the source): with
every spawn failing and auto-suggest on, the replacement batch spawned by
`executeSpecificSolution` for the solution text `git push origin main`
runs its single replacement command, that command fails, and a second
recovery dialogue starts (`recoveryStart` appears in the trace) — even
direct inner batches carrying `skipSuggestion := true` re-enter recovery. -/
theorem inner_batch_recovers_again :
    executeSpecificSolution envC1 1 false "git push origin main" =
      [Event.spawnAttempt ["git", "push", "origin", "main"],
       Event.recoveryStart "git push origin main" "spawn failed",
       Event.recoveryLogged "offline"]
    ∧ extractGitCommands "git push origin main" = ["git push origin main"]
    ∧ (executeMultipleCommands envC1 1 false ["git push origin main"]
        { mode := Mode.auto, skipSuggestion := true }).2.contains
        (Event.recoveryStart "git push origin main" "spawn failed") = true := by
  decide

/-! ## C2 — failures return `Failed`; recovery errors are swallowed -/

/-- C2: if the spawn of a command throws with message `e` (covering both a
non-zero exit and a spawn failure), `executeCommand` returns the `Failed`
result carrying `e` — for every environment, in particular whatever the
recovery dialogue does — and when the generator itself throws during the
recovery side effect, the error is caught and logged (`recoveryLogged`)
inside the dialogue rather than escaping: the trace ends with the logged
event and the result is unchanged. -/
theorem spawn_error_gives_failed_and_recovery_swallowed (env : Env) (fuel : Nat)
    (sdr : Bool) (command : String) (opts : ExecOptions) (e : String)
    (hsdr : sdr = false) (hdry : opts.dryRun = false)
    (hconf : isDangerousCommand command = false ∨ env.confirmAnswer command = true)
    (hspawn : env.spawnResult (parseCommand command) = Except.error e) :
    (executeCommand env fuel sdr command opts).1 =
      { success := false, error := some e }
    ∧ (∀ g, env.autoSuggest = true → opts.skipSuggestion = false →
        env.generate (solutionPrompt command e) = Except.error g →
        (executeCommand env (fuel + 1) sdr command opts).2 =
          (executeCommandBody env sdr command opts).1 ++
            [Event.recoveryStart command e, Event.recoveryLogged g]
        ∧ (executeCommand env (fuel + 1) sdr command opts).1 =
            { success := false, error := some e }) := by
  have hbody := executeCommandBody_spawn_error env sdr command opts e hsdr hdry hconf hspawn
  constructor
  · unfold executeCommand executeCommandP
    rw [hbody]
  · intro g hauto hskip hgen
    constructor
    · unfold executeCommand executeCommandP
      rw [hbody]
      simp [hauto, hskip, recoverAt, suggestErrorSolutionP, hgen, hbody]
    · unfold executeCommand executeCommandP
      rw [hbody]

/-- Witness for C2: a failing `git push` with a throwing generator yields
the `Failed` result carrying the spawn message, and the dialogue trace ends
in the logged generator error. -/
theorem spawn_error_gives_failed_and_recovery_swallowed_witness :
    (executeCommand envC2w 0 false "git push" {}).1 =
      { success := false, error := some "boom" }
    ∧ (executeCommand envC2w 1 false "git push" {}).2 =
      (executeCommandBody envC2w false "git push" {}).1 ++
        [Event.recoveryStart "git push" "boom", Event.recoveryLogged "offline"] := by
  have h := spawn_error_gives_failed_and_recovery_swallowed envC2w 0 false "git push" {}
    "boom" rfl rfl (Or.inl (by decide)) rfl
  exact ⟨h.1, (h.2 "offline" rfl rfl rfl).1⟩

/-! ## Result shapes -/

/-- The single-command runner produces exactly one of four record shapes:
cancelled, previewed-only, succeeded, or failed-with-message. -/
theorem executeCommandP_shapes (recover : String → String → List Event) (env : Env)
    (sdr : Bool) (c : String) (opts : ExecOptions) :
    (executeCommandP recover env sdr c opts).1 = { success := false, cancelled := true }
    ∨ (executeCommandP recover env sdr c opts).1 =
        { success := true, dryRun := true, command := some c }
    ∨ (executeCommandP recover env sdr c opts).1 = { success := true }
    ∨ ∃ e, (executeCommandP recover env sdr c opts).1 =
        { success := false, error := some e } := by
  unfold executeCommandP executeCommandBody executeCommandRun
  by_cases hd : isDangerousCommand c <;> by_cases hcf : env.confirmAnswer c <;>
    by_cases hdr : (sdr || opts.dryRun) = true <;>
      cases hsp : env.spawnResult (parseCommand c) <;>
        simp [hd, hcf, hdr, hsp]

/-- Every element kept by `stopAfterFirst` comes from the original list. -/
theorem stopAfterFirst_mem {α : Type} (p : α → Bool) :
    ∀ (l : List α) (x : α), x ∈ stopAfterFirst p l → x ∈ l := by
  intro l
  induction l with
  | nil => intro x hx; simp [stopAfterFirst] at hx
  | cons a as ih =>
    intro x hx
    by_cases h : p a = true
    · simp [stopAfterFirst, h] at hx
      simp [hx]
    · simp [stopAfterFirst, h] at hx
      rcases hx with h1 | h1
      · simp [h1]
      · exact List.mem_cons_of_mem _ (ih _ h1)

/-- Every result of the interactive loop is an outcome of the
single-command runner or a skipped record. -/
theorem runInteractiveP_mem (recover : String → String → List Event) (env : Env)
    (sdr : Bool) :
    ∀ (cs : List String) (i : Nat) (r : ExecResult),
      r ∈ (runInteractiveP recover env sdr i cs).1 →
      (∃ c, r = (executeCommandP recover env sdr c { dryRun := false }).1)
      ∨ ∃ c, r = { success := true, skipped := true, command := some c } := by
  intro cs
  induction cs with
  | nil => intro i r hr; simp [runInteractiveP] at hr
  | cons c cs ih =>
    intro i r hr
    cases hstep : env.stepChoice i with
    | quit => simp [runInteractiveP, hstep] at hr
    | skip =>
      simp only [runInteractiveP, hstep] at hr
      rcases List.mem_cons.mp hr with h1 | h1
      · exact Or.inr ⟨c, h1⟩
      · exact ih (i + 1) r h1
    | execute =>
      simp only [runInteractiveP, hstep] at hr
      by_cases h1 : (!(executeCommandP recover env sdr c { dryRun := false }).1.success &&
          !(executeCommandP recover env sdr c { dryRun := false }).1.cancelled) = true
      · by_cases h2 : env.continueOnError i = true
        · simp only [h1, h2, if_true] at hr
          rcases List.mem_cons.mp hr with h3 | h3
          · exact Or.inl ⟨c, h3⟩
          · exact ih (i + 1) r h3
        · simp only [h1, h2, if_true, if_false] at hr
          rcases List.mem_singleton.mp hr with h3
          exact Or.inl ⟨c, h3⟩
      · simp only [h1, if_false] at hr
        rcases List.mem_cons.mp hr with h3 | h3
        · exact Or.inl ⟨c, h3⟩
        · exact ih (i + 1) r h3

/-- Every result of a batch is an outcome of the single-command runner, a
skipped record, or a previewed-only record. -/
theorem batch_member_shapes (recover : String → String → List Event) (env : Env)
    (sdr : Bool) (commands : List String) (options : BatchOptions) :
    ∀ r ∈ (executeMultipleCommandsP recover env sdr commands options).1,
      (∃ c, r = (executeCommandP recover env sdr c { dryRun := false }).1)
      ∨ (∃ c, r = { success := true, skipped := true, command := some c })
      ∨ (∃ c, r = { success := true, dryRun := true, command := some c }) := by
  intro r hr
  rcases options with ⟨mode, sk⟩
  cases mode with
  | dry =>
    simp only [executeMultipleCommandsP, List.mem_map] at hr
    obtain ⟨c, _, rfl⟩ := hr
    exact Or.inr (Or.inr ⟨c, rfl⟩)
  | auto =>
    have h1 : (executeMultipleCommandsP recover env sdr commands
        ⟨Mode.auto, sk⟩).1 = (runAutoP recover env sdr commands).1 := rfl
    rw [h1, runAutoP_eq_stopAfterFirst] at hr
    have h2 := stopAfterFirst_mem _ _ _ hr
    obtain ⟨c, _, rfl⟩ := List.mem_map.mp h2
    exact Or.inl ⟨c, rfl⟩
  | interactive =>
    have h1 : (executeMultipleCommandsP recover env sdr commands
        ⟨Mode.interactive, sk⟩).1 = (runInteractiveP recover env sdr 0 commands).1 := rfl
    rw [h1] at hr
    rcases runInteractiveP_mem recover env sdr commands 0 r hr with h | h
    · exact Or.inl h
    · exact Or.inr (Or.inl h)

/-- Every result of a batch lies in exactly one of the five reporter
categories (the five category indicators sum to 1 on it). -/
theorem batch_member_kinds (recover : String → String → List Event) (env : Env)
    (sdr : Bool) (commands : List String) (options : BatchOptions) :
    ∀ r ∈ (executeMultipleCommandsP recover env sdr commands options).1,
      (isSuccessKind r).toNat + (isFailedKind r).toNat + (isCancelledKind r).toNat +
        (isSkippedKind r).toNat + (isDryRunKind r).toNat = 1 := by
  intro r hr
  rcases batch_member_shapes recover env sdr commands options r hr with
    ⟨c, rfl⟩ | ⟨c, rfl⟩ | ⟨c, rfl⟩
  · rcases executeCommandP_shapes recover env sdr c { dryRun := false } with
      h | h | h | ⟨e, h⟩ <;> rw [h] <;> rfl
  · rfl
  · rfl

/-- Filtering a cons adds the indicator of the head to the count. -/
theorem length_filter_cons (p : ExecResult → Bool) (r : ExecResult)
    (rs : List ExecResult) :
    (List.filter p (r :: rs)).length = (p r).toNat + (List.filter p rs).length := by
  cases h : p r
  · simp [List.filter_cons, h]
  · simp [List.filter_cons, h]
    omega

/-- If every element lies in exactly one category, the five counts add up
to the length. -/
theorem counts_partition_of_kinds (rs : List ExecResult)
    (h : ∀ r ∈ rs, (isSuccessKind r).toNat + (isFailedKind r).toNat +
      (isCancelledKind r).toNat + (isSkippedKind r).toNat + (isDryRunKind r).toNat = 1) :
    countSuccessful rs + countFailed rs + countCancelled rs + countSkipped rs +
      countDryRun rs = rs.length := by
  induction rs with
  | nil => rfl
  | cons r rs ih =>
    have hr := h r (List.mem_cons_self r rs)
    have ih' := ih fun x hx => h x (List.mem_cons_of_mem r hx)
    simp only [countSuccessful, countFailed, countCancelled, countSkipped, countDryRun] at *
    rw [length_filter_cons, length_filter_cons, length_filter_cons, length_filter_cons,
      length_filter_cons, List.length_cons]
    omega

/-! ## C10 — the reporter's five counts partition every batch result list -/

/-- C10: for every result list produced by the batch executor, the five
summary counts of `printExecutionSummary` add up to the number of results,
and each result is counted by exactly one of the five category filters. -/
theorem summary_counts_partition (env : Env) (fuel : Nat) (sdr : Bool)
    (commands : List String) (options : BatchOptions) :
    countSuccessful (executeMultipleCommands env fuel sdr commands options).1 +
      countFailed (executeMultipleCommands env fuel sdr commands options).1 +
      countCancelled (executeMultipleCommands env fuel sdr commands options).1 +
      countSkipped (executeMultipleCommands env fuel sdr commands options).1 +
      countDryRun (executeMultipleCommands env fuel sdr commands options).1 =
      (executeMultipleCommands env fuel sdr commands options).1.length
    ∧ ∀ r ∈ (executeMultipleCommands env fuel sdr commands options).1,
        (isSuccessKind r).toNat + (isFailedKind r).toNat + (isCancelledKind r).toNat +
          (isSkippedKind r).toNat + (isDryRunKind r).toNat = 1 := by
  have hk : ∀ r ∈ (executeMultipleCommands env fuel sdr commands options).1,
      (isSuccessKind r).toNat + (isFailedKind r).toNat + (isCancelledKind r).toNat +
        (isSkippedKind r).toNat + (isDryRunKind r).toNat = 1 :=
    batch_member_kinds (recoverAt fuel env sdr) env sdr commands options
  exact ⟨counts_partition_of_kinds _ hk, hk⟩

/-- Witness for C10: the failed result of a one-command batch is counted in
exactly one category. -/
theorem summary_counts_partition_witness :
    (isSuccessKind (commandOutcome envC10w 0 false "git push")).toNat +
      (isFailedKind (commandOutcome envC10w 0 false "git push")).toNat +
      (isCancelledKind (commandOutcome envC10w 0 false "git push")).toNat +
      (isSkippedKind (commandOutcome envC10w 0 false "git push")).toNat +
      (isDryRunKind (commandOutcome envC10w 0 false "git push")).toNat = 1 :=
  (summary_counts_partition envC10w 0 false ["git push"] { mode := Mode.auto }).2
    (commandOutcome envC10w 0 false "git push") (by decide)

/-! ## C8 — one kind per result; the command reference is partial -/

/-- C8 counterexample: a `Cancelled` result of the single-command runner
carries no reference to its originating command (`command = none`), so "a
result always references its originating Command" fails on the code. -/
theorem cancelled_result_has_no_command :
    (executeCommand envC8x 0 false "git reset --hard HEAD~1" {}).1.command = none
    ∧ isCancelledKind (executeCommand envC8x 0 false "git reset --hard HEAD~1" {}).1 =
        true := by
  decide

/-- C8 (amended): every result of the single-command runner is of exactly
one of the five kinds; a `PreviewedOnly` result references its originating
command, while `Cancelled`, `Succeeded` and `Failed` results carry
`command = none`. -/
theorem single_runner_kinds_amended (env : Env) (fuel : Nat) (sdr : Bool)
    (c : String) (opts : ExecOptions) :
    ∀ r, r = (executeCommand env fuel sdr c opts).1 →
      ((isSuccessKind r).toNat + (isFailedKind r).toNat + (isCancelledKind r).toNat +
        (isSkippedKind r).toNat + (isDryRunKind r).toNat = 1)
      ∧ (isDryRunKind r = true → r.command = some c)
      ∧ (isCancelledKind r = true ∨ isSuccessKind r = true ∨ isFailedKind r = true →
          r.command = none) := by
  intro r hr
  subst hr
  unfold executeCommand
  rcases executeCommandP_shapes (recoverAt fuel env sdr) env sdr c opts with
    h | h | h | ⟨e, h⟩ <;> rw [h] <;>
    exact ⟨rfl, by simp [isDryRunKind], by
      simp [isCancelledKind, isSuccessKind, isFailedKind]⟩

/-- Witness for C8: the succeeded result of `git status` in a benign
environment has exactly one kind. -/
theorem single_runner_kinds_amended_witness :
    (isSuccessKind (executeCommand baseEnv 0 false "git status" {}).1).toNat +
      (isFailedKind (executeCommand baseEnv 0 false "git status" {}).1).toNat +
      (isCancelledKind (executeCommand baseEnv 0 false "git status" {}).1).toNat +
      (isSkippedKind (executeCommand baseEnv 0 false "git status" {}).1).toNat +
      (isDryRunKind (executeCommand baseEnv 0 false "git status" {}).1).toNat = 1 :=
  (single_runner_kinds_amended baseEnv 0 false "git status" {}
    (executeCommand baseEnv 0 false "git status" {}).1 rfl).1

/-! ## C9 — a cancelled result neither halts interactive mode nor raises
the continue prompt -/

/-- C9: in interactive mode, when the user chose to execute a command and
the outcome is `Cancelled`, the batch records the result and proceeds
directly to the next command — the trace is exactly the runner's own events
followed by the continuation's, with no continue-despite-failure prompt
inserted; a `Failed` (not cancelled) outcome does insert that prompt. -/
theorem cancelled_does_not_halt_interactive (env : Env) (fuel : Nat) (sdr : Bool)
    (c : String) (cs : List String) (sk : Bool)
    (hstep : env.stepChoice 0 = StepChoice.execute) :
    ((commandOutcome env fuel sdr c).cancelled = true →
      executeMultipleCommands env fuel sdr (c :: cs)
          { mode := Mode.interactive, skipSuggestion := sk } =
        ((commandOutcome env fuel sdr c) ::
            (runInteractiveP (recoverAt fuel env sdr) env sdr 1 cs).1,
         (executeCommand env fuel sdr c { dryRun := false }).2 ++
            (runInteractiveP (recoverAt fuel env sdr) env sdr 1 cs).2))
    ∧ ((commandOutcome env fuel sdr c).success = false →
        (commandOutcome env fuel sdr c).cancelled = false →
        Event.continuePrompt 0 ∈
          (executeMultipleCommands env fuel sdr (c :: cs)
            { mode := Mode.interactive, skipSuggestion := sk }).2) := by
  have hbatch : executeMultipleCommands env fuel sdr (c :: cs)
      { mode := Mode.interactive, skipSuggestion := sk } =
      runInteractiveP (recoverAt fuel env sdr) env sdr 0 (c :: cs) := rfl
  constructor
  · intro hc
    rw [hbatch]
    simp only [runInteractiveP, hstep]
    have hc' : (executeCommandP (recoverAt fuel env sdr) env sdr c
        { dryRun := false }).1.cancelled = true := hc
    have h1 : (!(executeCommandP (recoverAt fuel env sdr) env sdr c
        { dryRun := false }).1.success &&
        !(executeCommandP (recoverAt fuel env sdr) env sdr c
        { dryRun := false }).1.cancelled) = true → False := by
      simp [hc']
    rw [if_neg h1]
    rfl
  · intro hs hc
    rw [hbatch]
    simp only [runInteractiveP, hstep]
    have hs' : (executeCommandP (recoverAt fuel env sdr) env sdr c
        { dryRun := false }).1.success = false := hs
    have hc' : (executeCommandP (recoverAt fuel env sdr) env sdr c
        { dryRun := false }).1.cancelled = false := hc
    by_cases hco : env.continueOnError 0 = true <;> simp [hs', hc', hco]

/-- Witness for C9: a declined danger confirmation inside an interactive
batch records the cancelled result and continues with the next command. -/
theorem cancelled_does_not_halt_interactive_witness :
    executeMultipleCommands envC9w 0 false ["git reset --hard HEAD~1", "git status"]
        { mode := Mode.interactive } =
      ((commandOutcome envC9w 0 false "git reset --hard HEAD~1") ::
          (runInteractiveP (recoverAt 0 envC9w false) envC9w false 1 ["git status"]).1,
       (executeCommand envC9w 0 false "git reset --hard HEAD~1" { dryRun := false }).2 ++
          (runInteractiveP (recoverAt 0 envC9w false) envC9w false 1 ["git status"]).2) :=
  (cancelled_does_not_halt_interactive envC9w 0 false "git reset --hard HEAD~1"
    ["git status"] false rfl).1 (by decide)

/-! ## C7 — batch results pair up, in order, with a prefix of the commands -/

/-- A `PrefixCorr`-related result list is at most as long as the command
list. -/
theorem PrefixCorr.length_le {rel : String → ExecResult → Prop} :
    ∀ {cs : List String} {rs : List ExecResult},
      PrefixCorr rel cs rs → rs.length ≤ cs.length := by
  intro cs rs h
  induction h with
  | nil => simp
  | cons c cs r rs _ _ ih => simpa using Nat.succ_le_succ ih

theorem runInteractiveP_prefixCorr (env : Env) (fuel : Nat) (sdr : Bool) :
    ∀ (cs : List String) (i : Nat),
      PrefixCorr (resultFor env fuel sdr) cs
        (runInteractiveP (recoverAt fuel env sdr) env sdr i cs).1 := by
  intro cs
  induction cs with
  | nil => intro i; exact PrefixCorr.nil []
  | cons c cs ih =>
    intro i
    cases hstep : env.stepChoice i with
    | quit => simp only [runInteractiveP, hstep]; exact PrefixCorr.nil _
    | skip =>
      simp only [runInteractiveP, hstep]
      exact PrefixCorr.cons c cs _ _
        (show resultFor env fuel sdr c _ from Or.inr (Or.inl rfl)) (ih (i + 1))
    | execute =>
      simp only [runInteractiveP, hstep]
      by_cases h1 : (!(executeCommandP (recoverAt fuel env sdr) env sdr c
          { dryRun := false }).1.success &&
          !(executeCommandP (recoverAt fuel env sdr) env sdr c
          { dryRun := false }).1.cancelled) = true
      · rw [if_pos h1]
        by_cases h2 : env.continueOnError i = true
        · rw [if_pos h2]
          exact PrefixCorr.cons c cs _ _
            (show resultFor env fuel sdr c _ from Or.inl rfl) (ih (i + 1))
        · rw [if_neg h2]
          exact PrefixCorr.cons c cs _ _
            (show resultFor env fuel sdr c _ from Or.inl rfl) (PrefixCorr.nil cs)
      · rw [if_neg h1]
        exact PrefixCorr.cons c cs _ _
          (show resultFor env fuel sdr c _ from Or.inl rfl) (ih (i + 1))

theorem runAutoP_prefixCorr (env : Env) (fuel : Nat) (sdr : Bool) :
    ∀ cs : List String,
      PrefixCorr (resultFor env fuel sdr) cs
        (runAutoP (recoverAt fuel env sdr) env sdr cs).1 := by
  intro cs
  induction cs with
  | nil => exact PrefixCorr.nil []
  | cons c cs ih =>
    simp only [runAutoP]
    by_cases h1 : (!(executeCommandP (recoverAt fuel env sdr) env sdr c
        { dryRun := false }).1.success &&
        !(executeCommandP (recoverAt fuel env sdr) env sdr c
        { dryRun := false }).1.cancelled) = true
    · rw [if_pos h1]
      exact PrefixCorr.cons c cs _ _
        (show resultFor env fuel sdr c _ from Or.inl rfl) (PrefixCorr.nil cs)
    · rw [if_neg h1]
      by_cases h2 : (executeCommandP (recoverAt fuel env sdr) env sdr c
          { dryRun := false }).1.cancelled = true
      · rw [if_pos h2]
        exact PrefixCorr.cons c cs _ _
          (show resultFor env fuel sdr c _ from Or.inl rfl) (PrefixCorr.nil cs)
      · rw [if_neg h2]
        exact PrefixCorr.cons c cs _ _
          (show resultFor env fuel sdr c _ from Or.inl rfl) ih

/-- C7: in every mode the result list pairs up, in order, with a prefix of
the input command list (no result for commands after an early halt), and in
interactive mode quitting on the second of three commands leaves exactly the
first command's result — the skipped record if it was skipped, or its
execution outcome if it was executed and did not halt the batch. -/
theorem batch_results_prefix_of_commands (env : Env) (fuel : Nat) (sdr : Bool)
    (commands : List String) (options : BatchOptions) :
    (PrefixCorr (resultFor env fuel sdr) commands
        (executeMultipleCommands env fuel sdr commands options).1
      ∧ (executeMultipleCommands env fuel sdr commands options).1.length ≤
          commands.length)
    ∧ ∀ c1 c2 c3 : String, ∀ sk : Bool, env.stepChoice 1 = StepChoice.quit →
        ((env.stepChoice 0 = StepChoice.skip →
          (executeMultipleCommands env fuel sdr [c1, c2, c3]
              { mode := Mode.interactive, skipSuggestion := sk }).1 =
            [{ success := true, skipped := true, command := some c1 }])
        ∧ (env.stepChoice 0 = StepChoice.execute →
            ((commandOutcome env fuel sdr c1).success = true ∨
              (commandOutcome env fuel sdr c1).cancelled = true ∨
              env.continueOnError 0 = true) →
            (executeMultipleCommands env fuel sdr [c1, c2, c3]
                { mode := Mode.interactive, skipSuggestion := sk }).1 =
              [commandOutcome env fuel sdr c1])) := by
  constructor
  · have hcorr : PrefixCorr (resultFor env fuel sdr) commands
        (executeMultipleCommands env fuel sdr commands options).1 := by
      rcases options with ⟨mode, sk⟩
      cases mode with
      | dry =>
        have h1 : (executeMultipleCommands env fuel sdr commands ⟨Mode.dry, sk⟩).1 =
            commands.map fun command =>
              { success := true, dryRun := true, command := some command } := rfl
        rw [h1]
        clear h1
        induction commands with
        | nil => exact PrefixCorr.nil []
        | cons c cs ih =>
          simp only [List.map_cons]
          exact PrefixCorr.cons c cs _ _
            (show resultFor env fuel sdr c _ from Or.inr (Or.inr rfl)) ih
      | auto => exact runAutoP_prefixCorr env fuel sdr commands
      | interactive => exact runInteractiveP_prefixCorr env fuel sdr commands 0
    exact ⟨hcorr, hcorr.length_le⟩
  · intro c1 c2 c3 sk hq
    have hbatch : (executeMultipleCommands env fuel sdr [c1, c2, c3]
        { mode := Mode.interactive, skipSuggestion := sk }).1 =
        (runInteractiveP (recoverAt fuel env sdr) env sdr 0 [c1, c2, c3]).1 := rfl
    constructor
    · intro hskip
      rw [hbatch]
      simp [runInteractiveP, hskip, hq]
    · intro hexec hcont
      rw [hbatch]
      simp only [runInteractiveP, hexec, hq]
      have hnofail : ((!(executeCommandP (recoverAt fuel env sdr) env sdr c1
          { dryRun := false }).1.success &&
          !(executeCommandP (recoverAt fuel env sdr) env sdr c1
          { dryRun := false }).1.cancelled) = true ∧ env.continueOnError 0 = true)
          ∨ ((!(executeCommandP (recoverAt fuel env sdr) env sdr c1
          { dryRun := false }).1.success &&
          !(executeCommandP (recoverAt fuel env sdr) env sdr c1
          { dryRun := false }).1.cancelled) = true → False) := by
        rcases hcont with h | h | h
        · right
          have h' : (executeCommandP (recoverAt fuel env sdr) env sdr c1
              { dryRun := false }).1.success = true := h
          simp [h']
        · right
          have h' : (executeCommandP (recoverAt fuel env sdr) env sdr c1
              { dryRun := false }).1.cancelled = true := h
          simp [h']
        · by_cases hf : (!(executeCommandP (recoverAt fuel env sdr) env sdr c1
              { dryRun := false }).1.success &&
              !(executeCommandP (recoverAt fuel env sdr) env sdr c1
              { dryRun := false }).1.cancelled) = true
          · exact Or.inl ⟨hf, h⟩
          · exact Or.inr hf
      rcases hnofail with ⟨hf, hco⟩ | hf
      · rw [if_pos hf, if_pos hco]
        simp only [runInteractiveP, hq]
        rfl
      · rw [if_neg hf]
        simp only [runInteractiveP, hq]
        rfl

/-- Witness for C7: skipping the first command and quitting on the second
of three yields exactly the skipped record of the first command. -/
theorem batch_results_prefix_of_commands_witness :
    (executeMultipleCommands envC7w 0 false ["git add .", "git commit", "git push"]
        { mode := Mode.interactive }).1 =
      [{ success := true, skipped := true, command := some "git add ." }] :=
  ((batch_results_prefix_of_commands envC7w 0 false [] { mode := Mode.dry }).2
    "git add ." "git commit" "git push" false rfl).1 rfl

/-! ## C4 — the tokenizer

The tokenizer splits on the space character only (not on general
whitespace): the loop tests `char === ' '`.  A tab therefore does not
separate tokens, which refutes the claim as stated; the amended claim
replaces "whitespace" by "the space character" (tokens are additionally
trimmed of surrounding whitespace, which is why whitespace-only input still
yields the empty sequence). -/

/-- C4 counterexample: a tab does not separate tokens — `git\tstatus` stays
one token instead of splitting into `git` and `status`. -/
theorem tokenizer_tab_is_not_a_separator :
    parseCommand "git\tstatus" = ["git\tstatus"]
    ∧ (parseCommand "git\tstatus" == ["git", "status"]) = false := by
  decide

theorem dropWhile_append_of_all (p : Char → Bool) (w l : List Char)
    (h : ∀ c ∈ w, p c = true) :
    List.dropWhile p (w ++ l) = List.dropWhile p l := by
  induction w with
  | nil => rfl
  | cons c w ih =>
    have hc := h c (List.mem_cons_self c w)
    simp only [List.cons_append, List.dropWhile_cons, hc, if_true]
    exact ih fun x hx => h x (List.mem_cons_of_mem c hx)

theorem jsTrim_mk_eq_empty (l : List Char) :
    jsTrim (String.mk l) = "" ↔ ∀ c ∈ l, isJsWs c = true := by
  unfold jsTrim
  constructor
  · intro h c hc
    have hdata : (((l.dropWhile isJsWs).reverse.dropWhile isJsWs).reverse) = [] := by
      have := congrArg String.data h
      simpa using this
    have h2 : (l.dropWhile isJsWs).reverse.dropWhile isJsWs = [] := by
      simpa using congrArg List.reverse hdata
    have h3 : ∀ x ∈ (l.dropWhile isJsWs).reverse, isJsWs x = true :=
      List.dropWhile_eq_nil_iff.mp h2
    have h4 : ∀ x ∈ l.dropWhile isJsWs, isJsWs x = true := by
      intro x hx
      exact h3 x (List.mem_reverse.mpr hx)
    have h5 : c ∈ l.takeWhile isJsWs ++ l.dropWhile isJsWs := by
      rw [List.takeWhile_append_dropWhile]
      exact hc
    rcases List.mem_append.mp h5 with h6 | h6
    · exact List.mem_takeWhile_imp h6
    · exact h4 c h6
  · intro h
    have h2 : l.dropWhile isJsWs = [] := List.dropWhile_eq_nil_iff.mpr h
    rw [h2]
    rfl

theorem jsTrim_ws_prefix (w l : List Char) (h : ∀ c ∈ w, isJsWs c = true) :
    jsTrim (String.mk (w ++ l)) = jsTrim (String.mk l) := by
  unfold jsTrim
  have : List.dropWhile isJsWs (w ++ l) = List.dropWhile isJsWs l :=
    dropWhile_append_of_all isJsWs w l h
  simp only [String.data]
  rw [this]

theorem splitOnChar_no_sep (sep : Char) (l : List Char) (h : ∀ c ∈ l, c ≠ sep) :
    splitOnChar sep l = [l] := by
  induction l with
  | nil => rfl
  | cons c r ih =>
    have hc : (c == sep) = false := by
      simpa using h c (List.mem_cons_self c r)
    have ih' := ih fun x hx => h x (List.mem_cons_of_mem c hx)
    simp [splitOnChar, hc, ih']

theorem splitOnChar_cons_ne (sep : Char) (l : List Char) :
    ∃ f fs, splitOnChar sep l = f :: fs := by
  cases l with
  | nil => exact ⟨[], [], rfl⟩
  | cons c r =>
    by_cases h : (c == sep) = true
    · exact ⟨[], splitOnChar sep r, by simp [splitOnChar, h]⟩
    · cases hs : splitOnChar sep r with
      | nil => exact ⟨[c], [], by simp [splitOnChar, h, hs]⟩
      | cons f fs => exact ⟨c :: f, fs, by simp [splitOnChar, h, hs]⟩

theorem splitOnChar_append (sep : Char) (p l : List Char) (f : List Char)
    (fs : List (List Char)) (h : ∀ c ∈ p, c ≠ sep)
    (hsplit : splitOnChar sep l = f :: fs) :
    splitOnChar sep (p ++ l) = (p ++ f) :: fs := by
  induction p with
  | nil => simpa using hsplit
  | cons c p ih =>
    have hc : (c == sep) = false := by
      simpa using h c (List.mem_cons_self c p)
    have ih' := ih fun x hx => h x (List.mem_cons_of_mem c hx)
    simp [splitOnChar, hc, ih']

theorem splitOnChar_mem (sep : Char) :
    ∀ (l : List Char) (f : List Char), f ∈ splitOnChar sep l → ∀ c ∈ f, c ∈ l := by
  intro l
  induction l with
  | nil =>
    intro f hf c hc
    simp only [splitOnChar, List.mem_singleton] at hf
    subst hf
    simp at hc
  | cons a r ih =>
    intro f hf c hc
    by_cases ha : (a == sep) = true
    · rw [show splitOnChar sep (a :: r) = [] :: splitOnChar sep r by
        simp [splitOnChar, ha]] at hf
      rcases List.mem_cons.mp hf with h1 | h1
      · subst h1; simp at hc
      · exact List.mem_cons_of_mem a (ih f h1 c hc)
    · rcases splitOnChar_cons_ne sep r with ⟨f0, fs0, hs⟩
      rw [show splitOnChar sep (a :: r) = (a :: f0) :: fs0 by
        simp [splitOnChar, ha, hs]] at hf
      rcases List.mem_cons.mp hf with h1 | h1
      · subst h1
        rcases List.mem_cons.mp hc with h2 | h2
        · simp [h2]
        · exact List.mem_cons_of_mem a
            (ih f0 (by rw [hs]; exact List.mem_cons_self f0 fs0) c h2)
      · exact List.mem_cons_of_mem a
          (ih f (by rw [hs]; exact List.mem_cons_of_mem f0 h1) c hc)

/-- Processing a quote-free suffix from a space-free pending token: the
final argument vector is the accumulated one followed by the trimmed,
nonempty space-fields of `cur ++ cs`. -/
theorem parse_quotefree :
    ∀ (cs : List Char) (args : List String) (cur : List Char),
      (∀ c ∈ cs, c ≠ '"' ∧ c ≠ '\'') → (∀ c ∈ cur, c ≠ ' ') →
      parseFinish (cs.foldl parseCommandStep ⟨args, cur, false, none⟩) =
        args ++ trimmedFields (cur ++ cs) := by
  intro cs
  induction cs with
  | nil =>
    intro args cur _ hcur
    have hsplit : splitOnChar ' ' (cur ++ []) = [cur] := by
      rw [List.append_nil]
      exact splitOnChar_no_sep ' ' cur hcur
    simp only [List.foldl_nil, parseFinish, trimmedFields, hsplit, List.map_cons,
      List.map_nil]
    cases h : (jsTrim (String.mk cur) == "") with
    | true =>
      have h' : jsTrim (String.mk cur) = "" := by simpa using h
      simp [h, h']
    | false =>
      have h' : jsTrim (String.mk cur) ≠ "" := by simpa using h
      simp [h, h']
  | cons c cs ih =>
    intro args cur hq hcur
    have hqc := hq c (List.mem_cons_self c cs)
    have hq' : ∀ x ∈ cs, x ≠ '"' ∧ x ≠ '\'' :=
      fun x hx => hq x (List.mem_cons_of_mem c hx)
    have hq1 : (c == '"') = false := by simpa using hqc.1
    have hq2 : (c == '\'') = false := by simpa using hqc.2
    by_cases hsp : (c == ' ') = true
    · have hc' : c = ' ' := by simpa using hsp
      subst hc'
      rcases splitOnChar_cons_ne ' ' cs with ⟨f1, fs1, hs1⟩
      have hall : splitOnChar ' ' (cur ++ ' ' :: cs) = cur :: f1 :: fs1 := by
        have htail : splitOnChar ' ' (' ' :: cs) = [] :: f1 :: fs1 := by
          simp [splitOnChar, hs1]
        have := splitOnChar_append ' ' cur (' ' :: cs) [] (f1 :: fs1) hcur htail
        simpa using this
      by_cases htr : (jsTrim (String.mk cur) == "") = true
      · have hstep : parseCommandStep ⟨args, cur, false, none⟩ ' ' =
            ⟨args, cur, false, none⟩ := by
          simp [parseCommandStep, htr]
        rw [List.foldl_cons, hstep, ih args cur hq' hcur]
        have hcurws : ∀ x ∈ cur, isJsWs x = true :=
          (jsTrim_mk_eq_empty cur).mp (by simpa using htr)
        have hmerge : splitOnChar ' ' (cur ++ cs) = (cur ++ f1) :: fs1 :=
          splitOnChar_append ' ' cur cs f1 fs1 hcur hs1
        have htrim : jsTrim (String.mk (cur ++ f1)) = jsTrim (String.mk f1) :=
          jsTrim_ws_prefix cur f1 hcurws
        have htr' : jsTrim (String.mk cur) = "" := by simpa using htr
        simp [trimmedFields, hall, hmerge, htrim, htr']
      · have hstep : parseCommandStep ⟨args, cur, false, none⟩ ' ' =
            ⟨args ++ [jsTrim (String.mk cur)], [], false, none⟩ := by
          simp only [parseCommandStep] at *
          simp [htr]
        rw [List.foldl_cons, hstep,
          ih (args ++ [jsTrim (String.mk cur)]) [] hq' (by simp)]
        have htr' : (jsTrim (String.mk cur) != "") = true := by
          simpa using htr
        simp [trimmedFields, hall, htr', hs1, List.append_assoc]
    · have hstep : parseCommandStep ⟨args, cur, false, none⟩ c =
          ⟨args, cur ++ [c], false, none⟩ := by
        simp [parseCommandStep, hq1, hq2, hsp]
      have hcur' : ∀ x ∈ cur ++ [c], x ≠ ' ' := by
        intro x hx
        rcases List.mem_append.mp hx with h1 | h1
        · exact hcur x h1
        · rcases List.mem_singleton.mp h1 with rfl
          simpa using hsp
      rw [List.foldl_cons, hstep, ih args (cur ++ [c]) hq' hcur']
      simp [List.append_assoc]

/-- Processing characters inside a quoted span appends them all to the
pending token. -/
theorem parse_inquotes (q : Char) :
    ∀ (cs : List Char) (args : List String) (cur : List Char),
      (∀ c ∈ cs, c ≠ q) →
      cs.foldl parseCommandStep ⟨args, cur, true, some q⟩ =
        ⟨args, cur ++ cs, true, some q⟩ := by
  intro cs
  induction cs with
  | nil => intro args cur _; simp
  | cons c cs ih =>
    intro args cur h
    have hc : (c == q) = false := by
      simpa using h c (List.mem_cons_self c cs)
    have hstep : parseCommandStep ⟨args, cur, true, some q⟩ c =
        ⟨args, cur ++ [c], true, some q⟩ := by
      simp [parseCommandStep, hc]
    rw [List.foldl_cons, hstep, ih args (cur ++ [c])
      fun x hx => h x (List.mem_cons_of_mem c hx)]
    simp

/-- C4 (amended): the tokenizer splits on the space character (not on
general whitespace) outside quoted spans, trimming each token; a quoted
span is kept as one token with the quote characters stripped; an
unterminated quote extends to the end of the string without error;
empty or whitespace-only input yields the empty sequence; and
`git commit -m "fix: a b"` yields the four tokens
`git`, `commit`, `-m`, `fix: a b`. -/
theorem tokenizer_amended (s : String) :
    ((∀ c ∈ s.data, isJsWs c = true) → parseCommand s = [])
    ∧ ((∀ c ∈ s.data, c ≠ '"' ∧ c ≠ '\'') → parseCommand s = specSpaceTokens s)
    ∧ ((∀ c ∈ s.data, c ≠ '"') →
        parseCommand (String.mk ('"' :: s.data ++ ['"'])) =
          (if jsTrim s == "" then [] else [jsTrim s])
        ∧ parseCommand (String.mk ('"' :: s.data)) =
          (if jsTrim s == "" then [] else [jsTrim s]))
    ∧ parseCommand "git commit -m \"fix: a b\"" = ["git", "commit", "-m", "fix: a b"] := by
  refine ⟨?_, ?_, ?_, by decide⟩
  · intro h
    have hnq : ∀ c ∈ s.data, c ≠ '"' ∧ c ≠ '\'' := by
      intro c hc
      have hw := h c hc
      constructor
      · intro he; subst he; exact absurd hw (by decide)
      · intro he; subst he; exact absurd hw (by decide)
    have h2 : parseCommand s = specSpaceTokens s := by
      have := parse_quotefree s.data [] [] hnq (by simp)
      simpa [parseCommand, specSpaceTokens] using this
    rw [h2]
    have : ∀ t ∈ (splitOnChar ' ' s.data).map fun f => jsTrim (String.mk f),
        ¬((t != "") = true) := by
      intro t ht
      obtain ⟨f, hf, rfl⟩ := List.mem_map.mp ht
      have hws : ∀ c ∈ f, isJsWs c = true :=
        fun c hc => h c (splitOnChar_mem ' ' s.data f hf c hc)
      have := (jsTrim_mk_eq_empty f).mpr hws
      simp [this]
    simp only [specSpaceTokens, trimmedFields]
    exact List.filter_eq_nil_iff.mpr this
  · intro h
    have := parse_quotefree s.data [] [] h (by simp)
    simpa [parseCommand, specSpaceTokens] using this
  · intro h
    constructor
    · have hfold : ('"' :: s.data ++ ['"']).foldl parseCommandStep
          ⟨[], [], false, none⟩ = ⟨[], s.data, false, none⟩ := by
        have hstep1 : parseCommandStep ⟨[], [], false, none⟩ '"' =
            ⟨[], [], true, some '"'⟩ := by
          simp [parseCommandStep]
        have hmid := parse_inquotes '"' s.data [] [] h
        have hstep2 : parseCommandStep ⟨[], s.data, true, some '"'⟩ '"' =
            ⟨[], s.data, false, none⟩ := by
          simp [parseCommandStep]
        calc ('"' :: s.data ++ ['"']).foldl parseCommandStep ⟨[], [], false, none⟩
            = (s.data ++ ['"']).foldl parseCommandStep ⟨[], [], true, some '"'⟩ := by
              rw [List.cons_append, List.foldl_cons, hstep1]
          _ = ['"'].foldl parseCommandStep ⟨[], s.data, true, some '"'⟩ := by
              rw [List.foldl_append, hmid]
              simp
          _ = ⟨[], s.data, false, none⟩ := by
              rw [List.foldl_cons, hstep2]
              simp
      show parseFinish (('"' :: s.data ++ ['"']).foldl parseCommandStep
          ⟨[], [], false, none⟩) = _
      rw [hfold]
      unfold parseFinish
      cases ht : (jsTrim (String.mk s.data) == "") <;> simp_all
    · have hfold : ('"' :: s.data).foldl parseCommandStep
          ⟨[], [], false, none⟩ = ⟨[], s.data, true, some '"'⟩ := by
        have hstep1 : parseCommandStep ⟨[], [], false, none⟩ '"' =
            ⟨[], [], true, some '"'⟩ := by
          simp [parseCommandStep]
        rw [List.foldl_cons, hstep1, parse_inquotes '"' s.data [] [] h]
        simp
      show parseFinish (('"' :: s.data).foldl parseCommandStep
          ⟨[], [], false, none⟩) = _
      rw [hfold]
      unfold parseFinish
      cases ht : (jsTrim (String.mk s.data) == "") <;> simp_all

/-- Witness for C4: the quote-free command `git push origin main` is split
into its space-separated tokens. -/
theorem tokenizer_amended_witness :
    parseCommand "git push origin main" = specSpaceTokens "git push origin main" :=
  (tokenizer_amended "git push origin main").2.1 (by decide)

end Rltgjqm
